import Mathlib

/-!
Verification of the pchtxt Patch Text parser (pchtxt.cpp) against its
natural-language specification.  The C++ source is shallowly embedded:
strings are lists of characters, the std::size_t arithmetic on find/rfind
results is modelled modulo 2 ^ 64 with npos = 2 ^ 64 - 1, and the two
C++ operations that can throw (std::string::substr and std::stoi) are
modelled in an Except monad whose errors mirror the thrown exception
types.  The diagnostic sink is modelled as a list of log events, one
constructor per logOs write site in the source.
-/

namespace Pchtxt

abbrev Str := List Char

/-- std::isspace in the default C locale, restricted to ASCII. -/
def isspace (c : Char) : Bool :=
  c == ' ' || c == '\t' || c == '\n' || c == '\x0b' || c == '\x0c' || c == '\r'

/-- std::tolower in the default C locale, restricted to ASCII. -/
def tolowerChar (c : Char) : Char :=
  if 'A' ≤ c && c ≤ 'Z' then Char.ofNat (c.toNat + 32) else c

/-- std::isxdigit in the default C locale. -/
def isxdigit (c : Char) : Bool :=
  ('0' ≤ c && c ≤ '9') || ('a' ≤ c && c ≤ 'f') || ('A' ≤ c && c ≤ 'F')

/-- ltrim from pchtxt.cpp: erase leading whitespace. -/
def ltrimF (s : Str) : Str := s.dropWhile isspace

/-- rtrim from pchtxt.cpp: erase the maximal run of trailing whitespace. -/
def rtrimF : Str → Str
  | [] => []
  | c :: cs =>
    let r := rtrimF cs
    if r = [] && isspace c then [] else c :: r

/-- trim from pchtxt.cpp: ltrim then rtrim. -/
def trimF (s : Str) : Str := rtrimF (ltrimF s)

/-- firstToken from pchtxt.cpp: maximal prefix without whitespace. -/
def firstToken (s : Str) : Str := s.takeWhile (fun c => !isspace c)

/-- getStringToLowerCase from pchtxt.cpp. -/
def getStringToLowerCase (s : Str) : Str := s.map tolowerChar

/-- commentPos scan from pchtxt.cpp, carrying the inside-string flag. -/
def commentPosAux : Str → Bool → Nat
  | [], _ => 0
  | c :: cs, isInString =>
    if c == '/' && !isInString then 0
    else 1 + commentPosAux cs (if c == '"' then !isInString else isInString)

/-- commentPos from pchtxt.cpp: index of the first slash outside quotes,
or the length if there is none. -/
def commentPos (s : Str) : Nat := commentPosAux s false

/-- getLineNoComment from pchtxt.cpp. -/
def getLineNoComment (s : Str) : Str := rtrimF (s.take (commentPos s))

/-- getLineCommentContent from pchtxt.cpp: from the comment position, skip
whitespace and slashes, keep the rest. -/
def getLineCommentContent (s : Str) : Str :=
  (s.drop (commentPos s)).dropWhile (fun c => isspace c || c == '/')

/-- stringIsHex from pchtxt.cpp (defined in the source, never called). -/
def stringIsHex (s : Str) : Bool := s.all isxdigit

/-- isStartsWith from pchtxt.cpp: length-checked prefix compare. -/
def isStartsWith (s target : Str) : Bool := target.isPrefixOf s

/-- std::string::npos as a std::size_t value. -/
def NPOS : Nat := 2 ^ 64 - 1

/-- std::size_t subtraction, wrapping modulo 2 ^ 64. -/
def szSub (a b : Nat) : Nat := (a + 2 ^ 64 - b % 2 ^ 64) % 2 ^ 64

/-- std::string::find for a single character: index or NPOS. -/
def findChar : Str → Char → Nat
  | [], _ => NPOS
  | x :: xs, c =>
    if x == c then 0
    else
      let r := findChar xs c
      if r = NPOS then NPOS else r + 1

/-- std::string::rfind for a single character: last index or NPOS. -/
def rfindChar (s : Str) (c : Char) : Nat :=
  let r := findChar s.reverse c
  if r = NPOS then NPOS else s.length - 1 - r

/-- The two C++ exception types that parsePchtxt can propagate. -/
inductive CppExn where
  | outOfRange
  | invalidArgument
  deriving DecidableEq

/-- std::string::substr(pos): throws std::out_of_range iff pos exceeds the
length, otherwise yields the suffix. -/
def substrE (s : Str) (pos : Nat) : Except CppExn Str :=
  if pos > s.length then .error .outOfRange else .ok (s.drop pos)

/-- Numeric value of a run of decimal digits. -/
def digitsVal (ds : Str) : Nat :=
  ds.foldl (fun a c => a * 10 + (c.toNat - '0'.toNat)) 0

/-- std::stoi: skip whitespace, optional sign, then decimal digits; throws
std::invalid_argument with no digits and std::out_of_range outside int. -/
def stoiE (s : Str) : Except CppExn Int :=
  let t := s.dropWhile isspace
  let sign : Int := if t.headD '\x00' == '-' then -1 else 1
  let t2 := if t.headD '\x00' == '-' || t.headD '\x00' == '+' then t.drop 1 else t
  let ds := t2.takeWhile (fun c => '0' ≤ c && c ≤ '9')
  if ds = [] then .error .invalidArgument
  else
    let v : Int := sign * (digitsVal ds : Int)
    if v > 2147483647 || v < -2147483648 then .error .outOfRange else .ok v

-- Data model (pchtxt.hpp structures, field shape as used by pchtxt.cpp)

inductive PatchType where
  | BIN
  | HEAP
  | AMS
  deriving DecidableEq

inductive TargetType where
  | NSO
  | NRO
  deriving DecidableEq

structure PatchContent where
  offset : Nat := 0
  value : List Nat := []
  deriving DecidableEq

structure Patch where
  name : Str := []
  author : Str := []
  type : PatchType := .BIN
  enabled : Bool := false
  lineNum : Nat := 0
  contents : List PatchContent := []
  deriving DecidableEq

structure PatchCollection where
  buildId : Str := []
  targetType : TargetType := .NSO
  patches : List Patch := []
  deriving DecidableEq

structure PatchTextMeta where
  title : Str := []
  programId : Str := []
  url : Str := []
  deriving DecidableEq

structure PatchTextOutput where
  meta : PatchTextMeta := {}
  collections : List PatchCollection := []
  deriving DecidableEq

/-- One log event per logOs write site in pchtxt.cpp. -/
inductive LogEvent where
  | doneParsing
  | stopTag (n : Nat)
  | errMissingBid (n : Nat) (tagSuffix : Str)
  | patchRead (n : Nat) (name : Str)
  | parsingPatch (n : Nat) (name : Str)
  | parsingCompleted (n : Nat) (bid : Str)
  | parsingStarted (n : Nat) (bid : Str)
  | parsingStartedLegacy (n : Nat) (bid : Str)
  | debugEnabled (n : Nat)
  | warnFlag (n : Nat) (flagType : Str)
  | errLegacyNsobid (n : Nat)
  | warnTag (n : Nat) (tag : Str)
  | echo (n : Nat) (line : Str)
  | invalidOffset (n : Nat) (line : Str)
  | parsingAmsCheat (n : Nat) (name : Str)
  | metaEof
  | metaDone (n : Nat)
  | metaStop
  | metaTag (n : Nat) (tag value : Str)
  | metaEcho (n : Nat) (line : Str)
  | legacyTitleUsed (title : Str)
  deriving DecidableEq

/-- Events whose C++ message carries the ERROR marker. -/
def isErrorEv : LogEvent → Bool
  | .errMissingBid _ _ => true
  | .errLegacyNsobid _ => true
  | _ => false

/-- Events whose C++ message is the invalid-offset diagnostic. -/
def isInvalidOffsetEv : LogEvent → Bool
  | .invalidOffset _ _ => true
  | _ => false

def errCount (evs : List LogEvent) : Nat := (evs.filter isErrorEv).length

/-- The parser state threaded through the per-line loop of parsePchtxt,
one field per local variable of the C++ loop; collections models the
result.collections list that the loop pushes completed collections into. -/
structure ParserState where
  curLineNum : Nat := 1
  lastCommentLine : Str := []
  curPatch : Patch := {}
  curPatchCollection : PatchCollection := {}
  curOffsetShift : Int := 0
  curIsBigEndian : Bool := false
  isAcceptingPatch : Bool := false
  stopParsing : Bool := false
  logDebugInfo : Bool := false
  collections : List PatchCollection := []
  deriving DecidableEq

/-- The enabled/disabled tag case of parsePchtxt. -/
def handleEnabledDisabled (st : ParserState) (curTag lineNoCommentLower : Str) :
    ParserState × List LogEvent :=
  let n := st.curLineNum
  if st.curPatchCollection.buildId = [] then
    ({st with stopParsing := true}, [.errMissingBid n curTag])
  else
    let (st1, evs1) :=
      if st.curPatch.contents ≠ [] then
        ({st with
            curPatchCollection :=
              {st.curPatchCollection with
                patches := st.curPatchCollection.patches ++ [st.curPatch]},
            curPatch := {}},
         [.patchRead n st.curPatch.name])
      else (st, [])
    let p1 := {st1.curPatch with enabled := curTag == "@enabled".toList}
    let p2 :=
      if p1.type ≠ .AMS then
        let aStart := findChar st1.lastCommentLine '['
        let aEnd := rfindChar st1.lastCommentLine ']'
        let patchName := rtrimF (st1.lastCommentLine.take aStart)
        let author :=
          if aStart ≠ NPOS then
            trimF ((st1.lastCommentLine.drop (aStart + 1)).take (szSub aEnd (aStart + 1)))
          else []
        {p1 with name := patchName, author := author}
      else p1
    let lineAfterTag := ltrimF (lineNoCommentLower.drop curTag.length)
    let patchType := firstToken lineAfterTag
    let p3 :=
      if patchType = "heap".toList then {p2 with type := .HEAP}
      else if patchType = "ams".toList then {p2 with type := .AMS}
      else p2
    ({st1 with curPatch := p3, isAcceptingPatch := true},
     evs1 ++ (if st.logDebugInfo then [.parsingPatch n p3.name] else []))

/-- The flag tag case of parsePchtxt. -/
def handleFlag (st : ParserState) (curTag lineNoComment : Str) :
    Except CppExn (ParserState × List LogEvent) :=
  let n := st.curLineNum
  let flagContent := ltrimF (lineNoComment.drop curTag.length)
  let flagType0 := ltrimF (firstToken flagContent)
  let flagValue := ltrimF (flagContent.drop flagType0.length)
  let flagType := getStringToLowerCase flagType0
  if flagType = "be".toList then .ok ({st with curIsBigEndian := true}, [])
  else if flagType = "le".toList then .ok ({st with curIsBigEndian := false}, [])
  else if flagType = "nsobid".toList ∨ flagType = "nrobid".toList then
    let (st1, evs1) : ParserState × List LogEvent :=
      if st.curPatch.contents ≠ [] then
        ({st with
            curPatchCollection :=
              {st.curPatchCollection with
                patches := st.curPatchCollection.patches ++ [st.curPatch]}},
         [.patchRead n st.curPatch.name])
      else (st, [])
    let st2 := {st1 with curPatch := {}}
    let (st3, evs2) : ParserState × List LogEvent :=
      if st2.curPatchCollection.patches ≠ [] then
        ({st2 with
            collections := st2.collections ++ [st2.curPatchCollection],
            curPatchCollection := {}},
         if st.logDebugInfo then [.parsingCompleted n st2.curPatchCollection.buildId] else [])
      else (st2, [])
    let tt := if flagType = "nrobid".toList then TargetType.NRO else TargetType.NSO
    let st4 := {st3 with
      curPatchCollection :=
        {st3.curPatchCollection with buildId := flagValue, targetType := tt},
      isAcceptingPatch := false}
    .ok (st4, evs1 ++ evs2 ++ (if st.logDebugInfo then [.parsingStarted n flagValue] else []))
  else if flagType = "offset_shift".toList then
    match stoiE flagValue with
    | .error e => .error e
    | .ok v => .ok ({st with curOffsetShift := v}, [])
  else if flagType = "debug_info".toList ∨ flagType = "print_values".toList then
    .ok ({st with logDebugInfo := true}, [.debugEnabled n])
  else .ok (st, [.warnFlag n flagType])

/-- The legacy nsobid tag case of parsePchtxt.  The C++ guard reads
(not lineNoCommentLower.size() > TAG.size() + 1); operator precedence
parses it as ((!size) > 8), a bool-to-int compare that never holds, so the
missing-value branch is unreachable and substr can throw instead. -/
def handleLegacy (st : ParserState) (lineNoComment lineNoCommentLower : Str) :
    Except CppExn (ParserState × List LogEvent) :=
  let n := st.curLineNum
  if (if lineNoCommentLower.length = 0 then 1 else 0) > "@nsobid".toList.length + 1 then
    .ok ({st with stopParsing := true}, [.errLegacyNsobid n])
  else
    match substrE lineNoComment ("@nsobid".toList.length + 1) with
    | .error e => .error e
    | .ok bid0 =>
      let bid := ltrimF bid0
      .ok ({st with
              curPatchCollection :=
                {st.curPatchCollection with targetType := .NSO, buildId := bid}},
           if st.logDebugInfo then [.parsingStartedLegacy n bid] else [])

/-- The AMS cheat header case of parsePchtxt (first character is an open
bracket). -/
def handleCheat (st : ParserState) (lineNoComment : Str) : ParserState × List LogEvent :=
  let n := st.curLineNum
  if st.curPatchCollection.buildId = [] then
    ({st with stopParsing := true}, [.errMissingBid n []])
  else
    let (st1, evs1) :=
      if st.curPatch.contents ≠ [] then
        ({st with
            curPatchCollection :=
              {st.curPatchCollection with
                patches := st.curPatchCollection.patches ++ [st.curPatch]}},
         [.patchRead n st.curPatch.name])
      else (st, [])
    let amsCheatName := trimF ((lineNoComment.drop 1).take (szSub (rfindChar lineNoComment ']') 1))
    let st2 := {st1 with curPatch :=
      {name := amsCheatName, author := [], type := .AMS, enabled := true,
       lineNum := n, contents := []}}
    (st2, evs1 ++ (if st.logDebugInfo then [.parsingAmsCheat n amsCheatName] else []))

/-- The default case of the per-line switch: patch body lines. -/
def handleBody (st : ParserState) (line lineNoComment lineNoCommentLower : Str) :
    ParserState × List LogEvent :=
  let n := st.curLineNum
  if !st.isAcceptingPatch then (st, [])
  else if line = [] then (st, [])
  else if st.curPatch.type = .AMS then
    ({st with curPatch := {st.curPatch with
        contents := st.curPatch.contents ++
          [{offset := 0, value := lineNoComment.map (fun c => c.toNat % 256)}]}},
     [])
  else
    let offsetStr := firstToken lineNoCommentLower
    if offsetStr = [] then
      (st, if st.logDebugInfo then [.invalidOffset n line] else [])
    else (st, [])

/-- The tag dispatch of parsePchtxt (first character is the at sign). -/
def handleTagLine (st : ParserState) (lineNoComment lineNoCommentLower : Str) :
    Except CppExn (ParserState × List LogEvent) :=
  let n := st.curLineNum
  let curTag := firstToken lineNoCommentLower
  if curTag = "@stop".toList then
    .ok ({st with stopParsing := true}, [.stopTag n])
  else if curTag = "@enabled".toList ∨ curTag = "@disabled".toList then
    .ok (handleEnabledDisabled st curTag lineNoCommentLower)
  else if curTag = "@flag".toList then
    handleFlag st curTag lineNoComment
  else if isStartsWith lineNoCommentLower "@nsobid".toList then
    handleLegacy st lineNoComment lineNoCommentLower
  else if !(["@title".toList, "@program".toList, "@url".toList,
             "@nsobid".toList].contains curTag) then
    .ok (st, [.warnTag n curTag])
  else .ok (st, [])

/-- One iteration of the per-line loop of parsePchtxt: trim, strip the
comment, lower-case, then dispatch on the first character of the trimmed
line (the null character, and hence the default branch, for an empty line). -/
def processLine (st : ParserState) (rawLine : Str) :
    Except CppExn (ParserState × List LogEvent) :=
  let line := trimF rawLine
  let lineNoComment := getLineNoComment line
  let lineNoCommentLower := getStringToLowerCase lineNoComment
  let c0 := line.headD '\x00'
  if c0 = '@' then handleTagLine st lineNoComment lineNoCommentLower
  else if c0 = '#' then .ok (st, [.echo st.curLineNum line])
  else if c0 = '[' then .ok (handleCheat st lineNoComment)
  else if c0 = '/' then .ok ({st with lastCommentLine := getLineCommentContent line}, [])
  else .ok (handleBody st line lineNoComment lineNoCommentLower)

/-- The per-line loop of parsePchtxt: stop when the stop flag is set,
consume one line per iteration, increment the line counter after each
processed line.  The end-of-stream log write is added by the caller since
it is only reached when the loop ends by a failed getline. -/
def steps : List Str → ParserState → Except CppExn (ParserState × List LogEvent)
  | [], st => .ok (st, [])
  | l :: rest, st =>
    if st.stopParsing then .ok (st, [])
    else
      match processLine st l with
      | .error e => .error e
      | .ok (st1, evs) =>
        match steps rest {st1 with curLineNum := st1.curLineNum + 1} with
        | .error e => .error e
        | .ok (st2, evs2) => .ok (st2, evs ++ evs2)

/-- The post-loop flushes of parsePchtxt: append the in-progress patch if
it has contents, then the in-progress collection if it has patches. -/
def finalize (st : ParserState) : ParserState × List LogEvent :=
  let n := st.curLineNum
  let (st1, evs1) :=
    if st.curPatch.contents ≠ [] then
      ({st with
          curPatchCollection :=
            {st.curPatchCollection with
              patches := st.curPatchCollection.patches ++ [st.curPatch]}},
       [.patchRead n st.curPatch.name])
    else (st, [])
  let (st2, evs2) :=
    if st1.curPatchCollection.patches ≠ [] then
      ({st1 with collections := st1.collections ++ [st1.curPatchCollection]},
       if st1.logDebugInfo then [.parsingCompleted n st1.curPatchCollection.buildId] else [])
    else (st1, [])
  (st2, evs1 ++ evs2)

/-- State of the getPchtxtMeta loop: the three meta fields written through
the tag map, the legacy title candidate and the line counter. -/
structure MetaState where
  title : Str := []
  programId : Str := []
  url : Str := []
  legacyTitle : Str := []
  curLineNum : Nat := 1
  deriving DecidableEq

/-- Assignment through the tag-to-field map of getPchtxtMeta; only called
for the three mapped tags. -/
def metaApplyTag (ms : MetaState) (curTag v : Str) : MetaState :=
  if curTag = "@title".toList then {ms with title := v}
  else if curTag = "@program".toList then {ms with programId := v}
  else {ms with url := v}

/-- The line loop of getPchtxtMeta: stops at end of stream, at a line that
is empty after trimming, or at the stop tag; records mapped tag values
(with one optional pair of surrounding quotes stripped) and the legacy
title candidate from echo lines. -/
def runMeta : List Str → MetaState → MetaState × List LogEvent
  | [], ms => (ms, [.metaEof])
  | l :: rest, ms =>
    let line := trimF l
    if line = [] then (ms, [.metaDone ms.curLineNum])
    else
      let line2 := getLineNoComment line
      let lineLower := getStringToLowerCase line2
      if line2.headD '\x00' = '@' then
        let curTag := firstToken lineLower
        if curTag = "@stop".toList then (ms, [.metaStop])
        else if ["@title".toList, "@program".toList, "@url".toList].contains curTag then
          let v0 := ltrimF (line2.drop curTag.length)
          let v := if v0.headD '\x00' = '"' ∧ v0.getD (v0.length - 1) '\x00' = '"'
                   then (v0.drop 1).take (v0.length - 2) else v0
          let ms1 := metaApplyTag ms curTag v
          let (msf, evs) := runMeta rest {ms1 with curLineNum := ms1.curLineNum + 1}
          (msf, .metaTag ms.curLineNum curTag v :: evs)
        else
          runMeta rest {ms with curLineNum := ms.curLineNum + 1}
      else if line2.headD '\x00' = '#' then
        let lt := ltrimF (line2.drop 1)
        let (msf, evs) := runMeta rest {ms with legacyTitle := lt, curLineNum := ms.curLineNum + 1}
        (msf, .metaEcho ms.curLineNum line2 :: evs)
      else
        runMeta rest {ms with curLineNum := ms.curLineNum + 1}

/-- getPchtxtMeta: run the meta loop, then fall back to the legacy echo
title when the title field is still empty. -/
def getPchtxtMetaCore (lines : List Str) : PatchTextMeta × List LogEvent :=
  let (ms, evs) := runMeta lines {}
  if ms.title = [] then
    ({title := ms.legacyTitle, programId := ms.programId, url := ms.url},
     evs ++ [.legacyTitleUsed ms.legacyTitle])
  else
    ({title := ms.title, programId := ms.programId, url := ms.url}, evs)

/-- parsePchtxt on a stream already split into lines: the meta pass over
the whole stream, a rewind, the per-line loop from the fresh initial
state, and the final flushes.  A thrown C++ exception propagates out. -/
def parsePchtxtCore (lines : List Str) : Except CppExn (PatchTextOutput × List LogEvent) :=
  let metaRes := getPchtxtMetaCore lines
  match steps lines {} with
  | .error e => .error e
  | .ok (st, evs) =>
    let evs1 := evs ++ (if st.stopParsing then [] else [.doneParsing])
    let fin := finalize st
    .ok ({meta := metaRes.1, collections := fin.1.collections},
         metaRes.2 ++ evs1 ++ fin.2)

/-- parsePchtxt with an explicit diagnostic sink: the sink may already
hold text (logPrior); the parser only ever appends to it. -/
def parsePchtxt (lines : List Str) (logPrior : List LogEvent) :
    Except CppExn (PatchTextOutput × List LogEvent) :=
  (parsePchtxtCore lines).map (fun r => (r.1, logPrior ++ r.2))

-- Concrete inputs used by counterexamples and witnesses

/-- The input of the cheat-script scenario of claim C1: a valid build-id
flag, a cheat block header, one body line, a blank line. -/
def c1Input : List Str :=
  ["@flag nsobid DEADBEEF", "[My Cheat]", "04 00 00 00", ""].map String.toList

/-- A stream holding only a legacy build-id tag with no value. -/
def c2Input : List Str := ["@nsobid"].map String.toList

/-- An AMS patch accepting body lines, with a blank line between two body
lines. -/
def c5Input : List Str :=
  ["@flag nsobid A", "@enabled ams", "x", "", "y"].map String.toList

/-- Verbose logging on, a binary patch accepting body lines, and a body
line whose first token is not valid hexadecimal. -/
def c7Input : List Str :=
  ["@flag nsobid A", "@flag debug_info", "@enabled", "zz 01"].map String.toList

/-- A document with one collection holding one non-empty AMS patch. -/
def w4Input : List Str :=
  ["@flag nsobid A", "@enabled ams", "x"].map String.toList

/-- A line that the tag dispatch classifies as an enabled or disabled tag. -/
def isEnabledDisabledLine (l : Str) : Bool :=
  let line := trimF l
  let t := firstToken (getStringToLowerCase (getLineNoComment line))
  line.headD '\x00' == '@' && (t == "@enabled".toList || t == "@disabled".toList)

/-- The lower-cased flag name the flag-tag case extracts after the tag
token of a comment-stripped line. -/
def flagTypeOf (lineNoComment : Str) : Str :=
  getStringToLowerCase (ltrimF (firstToken (ltrimF (lineNoComment.drop "@flag".toList.length))))

/-- The flag value (original case, left-trimmed) the flag-tag case
extracts after the flag name. -/
def flagValueOf (lineNoComment : Str) : Str :=
  let flagContent := ltrimF (lineNoComment.drop "@flag".toList.length)
  ltrimF (flagContent.drop (ltrimF (firstToken flagContent)).length)

/-- A patch that may legally sit inside a collection: non-empty contents,
and (as only AMS body lines ever append contents) AMS type. -/
def GoodPatch (p : Patch) : Prop := p.contents ≠ [] ∧ p.type = .AMS

/-- A collection that may legally sit inside the document. -/
def GoodColl (c : PatchCollection) : Prop :=
  c.patches ≠ [] ∧ ∀ p ∈ c.patches, GoodPatch p

/-- The loop invariant behind claims C4 and C10: every patch already in
the in-progress collection and in every completed collection is good, and
the in-progress patch can only have contents if it is an AMS patch. -/
def Inv (st : ParserState) : Prop :=
  (st.curPatch.contents ≠ [] → st.curPatch.type = .AMS) ∧
  (∀ p ∈ st.curPatchCollection.patches, GoodPatch p) ∧
  (∀ c ∈ st.collections, GoodColl c)

/-- A state in which nothing has been produced yet: no completed
collection, no patch in the in-progress collection, no contents in the
in-progress patch, and body lines not being accepted. -/
def Quiet (st : ParserState) : Prop :=
  st.collections = [] ∧ st.curPatchCollection.patches = [] ∧
  st.curPatch.contents = [] ∧ st.isAcceptingPatch = false

/-- The last-seen legacy echo candidate of the meta scan, written from the
wording of the specification for comparison with the implementation: every
line whose comment-stripped form starts with the echo marker records its
marker-stripped, trimmed remainder, each later echo line overwriting the
previous; the scan stops at end of input, at a line that is empty after
trimming, or at the stop tag. -/
def lastEchoCandidateSpec : List Str → Str → Str
  | [], acc => acc
  | l :: rest, acc =>
    let line := trimF l
    if line = [] then acc
    else
      let s := getLineNoComment line
      if s.headD '\x00' = '@' ∧ firstToken (getStringToLowerCase s) = "@stop".toList then acc
      else if s.headD '\x00' = '#' then lastEchoCandidateSpec rest (trimF (s.drop 1))
      else lastEchoCandidateSpec rest acc

/-- No line consumed by the meta scan carries the explicit title tag. -/
def noTitleTagInScan : List Str → Bool
  | [] => true
  | l :: rest =>
    let line := trimF l
    if line = [] then true
    else
      let s := getLineNoComment line
      if s.headD '\x00' = '@' then
        let t := firstToken (getStringToLowerCase s)
        if t = "@stop".toList then true
        else if t = "@title".toList then false
        else noTitleTagInScan rest
      else noTitleTagInScan rest

/-- Witness state for the amended claim C5: an AMS patch with one content
entry, currently accepting body lines. -/
def c5WitState : ParserState :=
  { curPatchCollection := { buildId := "A".toList },
    curPatch := { name := "P".toList, type := .AMS, enabled := true,
                  contents := [{offset := 0, value := [120]}] },
    isAcceptingPatch := true }

/-- Witness state for the amended claim C1: a non-empty build id and a
previous patch with contents. -/
def c1WitState : ParserState :=
  { curPatchCollection := { buildId := "BID".toList },
    curPatch := { name := "Old".toList, type := .AMS, enabled := true,
                  contents := [{offset := 0, value := [1, 2]}] },
    isAcceptingPatch := false, curLineNum := 7 }

/-- Witness state for claim C6: a non-empty in-progress patch and an
in-progress collection, both due to be flushed by the build-id flag. -/
def c6WitState : ParserState :=
  { curPatchCollection := { buildId := "OLD".toList,
                            targetType := .NSO,
                            patches := [{ name := "Q".toList, type := .AMS, enabled := true,
                                          contents := [{offset := 0, value := [3]}] }] },
    curPatch := { name := "R".toList, type := .AMS, enabled := false,
                  contents := [{offset := 0, value := [4]}] },
    isAcceptingPatch := true, curLineNum := 5 }

/-- Witness state for the amended claim C7: a binary patch accepting body
lines with verbose logging enabled. -/
def c7WitState : ParserState :=
  { curPatchCollection := { buildId := "A".toList },
    curPatch := { type := .BIN, enabled := true },
    isAcceptingPatch := true, logDebugInfo := true, curLineNum := 4 }

-- Theorems

/-- C1 counterexample: the claimed scenario (a cheat block header, one
body line and a blank line directly after a valid build-id flag) does not
yield one CheatScript patch with one content entry; the cheat header never
turns body-line acceptance on, so the body line is ignored, the patch
stays empty, and the parsed document has no collections at all. -/
theorem c1_counterexample :
    (parsePchtxtCore c1Input).map (fun r => r.1.collections) = .ok [] := by rfl

/-- C2: evaluating the parser at a stream holding only the legacy
build-id tag with no value.  The missing-value guard in the source never
fires (its negation binds to the size alone, giving a bool-to-int compare
that is always false), so execution reaches substr(8) on the 7-character
line and propagates std::out_of_range instead of logging one diagnostic,
setting the stop flag and returning normally. -/
theorem c2_legacy_missing_value_throws :
    parsePchtxtCore c2Input = .error .outOfRange := by rfl

/-- C5 counterexample: with an AMS patch accepting body lines, a blank
line does not close the patch: in the run below the body line after the
blank line is still appended to the same patch, leaving one patch with two
content entries where the claim predicts the patch closed at the blank
line with one. -/
theorem c5_counterexample :
    (parsePchtxtCore c5Input).map
      (fun r => r.1.collections.map (fun c => c.patches.map (fun p => p.contents.length))) =
      .ok [[2]] := by rfl

/-- C7 counterexample: with verbose logging enabled and a binary patch
accepting body lines, a body line whose first token is not valid
hexadecimal produces no invalid-offset diagnostic (the line is skipped
silently; the hex check of the claim does not exist in the loop). -/
theorem c7_counterexample :
    stringIsHex (firstToken (getStringToLowerCase (getLineNoComment (trimF "zz 01".toList))))
      = false ∧
    (steps c7Input {}).map (fun r => r.1.logDebugInfo) = .ok true ∧
    (parsePchtxtCore c7Input).map (fun r => r.2.filter isInvalidOffsetEv) = .ok [] :=
  ⟨rfl, rfl, rfl⟩

/-- C9: the parse loop is a total structurally recursive function of the
line list (one line consumed per iteration), and the document part of the
result does not depend on what the diagnostic sink already holds: the sink
is append-only and never read. -/
theorem c9_terminates_and_pure (lines : List Str) (log1 log2 : List LogEvent) :
    (parsePchtxt lines log1).map Prod.fst = (parsePchtxt lines log2).map Prod.fst := by
  unfold parsePchtxt
  cases parsePchtxtCore lines <;> rfl

/-- C5 (amended): while a cheat-script patch is accepting body lines, a
line that is empty after trimming is a no-op: the patch is not flushed, no
log line is written, the state (in particular the accepting flag and the
patch contents) is unchanged, and the patch closes only at the next tag,
header, build-id flag or finalization. -/
theorem c5_amended_blank_is_noop (st : ParserState) (rawLine : Str)
    (hacc : st.isAcceptingPatch = true) (_hty : st.curPatch.type = .AMS)
    (hempty : trimF rawLine = []) :
    processLine st rawLine = .ok (st, []) := by
  unfold processLine
  rw [hempty]
  simp [handleBody, hacc, getLineNoComment, commentPos, commentPosAux,
        getStringToLowerCase, rtrimF]

/-- Witness for the amended claim C5 at a concrete accepting AMS state
and a whitespace-only line. -/
theorem c5_amended_witness :
    c5WitState.isAcceptingPatch = true ∧ c5WitState.curPatch.type = .AMS ∧
    trimF "  ".toList = [] ∧
    processLine c5WitState "  ".toList = .ok (c5WitState, []) :=
  ⟨rfl, rfl, rfl, c5_amended_blank_is_noop c5WitState "  ".toList rfl rfl rfl⟩

/-- C1 (amended): a line whose trimmed form starts with an open bracket,
met while the build id is non-empty, flushes the previous patch if it has
contents and starts a new patch of cheat-script type with enabled true and
name taken from between the first open bracket and the last close bracket
of the comment-stripped line (trimmed); it does not change whether body
lines are accepted, so directly after a build-id flag (which turned
acceptance off) the following body lines are ignored. -/
theorem c1_amended_cheat_header (st : ParserState) (rawLine : Str)
    (hbid : st.curPatchCollection.buildId ≠ [])
    (hhead : (trimF rawLine).headD '\x00' = '[') :
    ∃ st' evs, processLine st rawLine = .ok (st', evs) ∧
      st'.curPatch =
        { name := trimF (((getLineNoComment (trimF rawLine)).drop 1).take
            (szSub (rfindChar (getLineNoComment (trimF rawLine)) ']') 1)),
          author := [], type := .AMS, enabled := true,
          lineNum := st.curLineNum, contents := [] } ∧
      st'.isAcceptingPatch = st.isAcceptingPatch ∧
      st'.stopParsing = st.stopParsing ∧
      st'.collections = st.collections ∧
      st'.curPatchCollection.buildId = st.curPatchCollection.buildId ∧
      st'.curPatchCollection.patches =
        st.curPatchCollection.patches ++
          (if st.curPatch.contents = [] then [] else [st.curPatch]) := by
  rcases htr : trimF rawLine with _ | ⟨c, cs⟩
  · rw [htr] at hhead
    exact absurd hhead (by decide)
  · rw [htr, List.headD_cons] at hhead
    subst hhead
    simp only [processLine, htr]
    by_cases hc : st.curPatch.contents = [] <;>
      simp [handleCheat, hbid, hc, htr]

/-- Witness for the amended claim C1 at a concrete state with a non-empty
build id and a previous patch with contents. -/
theorem c1_amended_witness :
    c1WitState.curPatchCollection.buildId ≠ [] ∧
    (trimF "[My Cheat] ".toList).headD '\x00' = '[' ∧
    ∃ st' evs, processLine c1WitState "[My Cheat] ".toList = .ok (st', evs) ∧
      st'.curPatch =
        { name := trimF (((getLineNoComment (trimF "[My Cheat] ".toList)).drop 1).take
            (szSub (rfindChar (getLineNoComment (trimF "[My Cheat] ".toList)) ']') 1)),
          author := [], type := .AMS, enabled := true,
          lineNum := c1WitState.curLineNum, contents := [] } ∧
      st'.isAcceptingPatch = c1WitState.isAcceptingPatch ∧
      st'.stopParsing = c1WitState.stopParsing ∧
      st'.collections = c1WitState.collections ∧
      st'.curPatchCollection.buildId = c1WitState.curPatchCollection.buildId ∧
      st'.curPatchCollection.patches =
        c1WitState.curPatchCollection.patches ++
          (if c1WitState.curPatch.contents = [] then [] else [c1WitState.curPatch]) :=
  ⟨by decide, rfl,
   c1_amended_cheat_header c1WitState "[My Cheat] ".toList (by decide) rfl⟩

/-- C7 (amended): for a binary or heap patch accepting body lines, a
non-empty body line never appends content and leaves the state unchanged;
the invalid-offset diagnostic is written only when verbose logging is on
and the first token of the lower-cased comment-stripped line is empty —
hex validity of a non-empty token is never checked. -/
theorem c7_amended_body_skipped (st : ParserState) (rawLine : Str)
    (hacc : st.isAcceptingPatch = true)
    (hty : st.curPatch.type = .BIN ∨ st.curPatch.type = .HEAP)
    (hne : trimF rawLine ≠ [])
    (hhead : (trimF rawLine).headD '\x00' ∉ (['@', '#', '[', '/'] : List Char)) :
    processLine st rawLine =
      .ok (st,
        if firstToken (getStringToLowerCase (getLineNoComment (trimF rawLine))) = [] then
          (if st.logDebugInfo then [.invalidOffset st.curLineNum (trimF rawLine)] else [])
        else []) := by
  rcases htr : trimF rawLine with _ | ⟨c, cs⟩
  · exact absurd htr hne
  · rw [htr, List.headD_cons] at hhead
    simp only [List.mem_cons, not_or] at hhead
    obtain ⟨h1, h2, h3, h4, -⟩ := hhead
    have hty' : st.curPatch.type ≠ .AMS := by
      rcases hty with h | h <;> simp [h]
    simp only [processLine, htr]
    simp [handleBody, h1, h2, h3, h4, hacc, hty', htr]
    split <;> rfl

/-- Witness for the amended claim C7 at a concrete verbose binary-patch
state and a body line with a non-hex first token. -/
theorem c7_amended_witness :
    c7WitState.isAcceptingPatch = true ∧
    (c7WitState.curPatch.type = .BIN ∨ c7WitState.curPatch.type = .HEAP) ∧
    trimF "zz 01".toList ≠ [] ∧
    (trimF "zz 01".toList).headD '\x00' ∉ (['@', '#', '[', '/'] : List Char) ∧
    processLine c7WitState "zz 01".toList =
      .ok (c7WitState,
        if firstToken (getStringToLowerCase (getLineNoComment (trimF "zz 01".toList))) = [] then
          (if c7WitState.logDebugInfo then
            [.invalidOffset c7WitState.curLineNum (trimF "zz 01".toList)] else [])
        else []) :=
  ⟨rfl, Or.inl rfl, by decide, by decide,
   c7_amended_body_skipped c7WitState "zz 01".toList rfl (Or.inl rfl) (by decide) (by decide)⟩

/-- C6: a flag line whose flag name case-folds to nsobid or nrobid
flushes the in-progress patch into the collection if it has contents and
the in-progress collection into the document if it then has patches, then
starts a fresh collection whose build id is the flag value with original
case preserved and whose target type is NRO for nrobid and NSO otherwise,
and stops accepting body lines. -/
theorem c6_bid_flag_starts_fresh_collection (st : ParserState) (rawLine : Str)
    (hhead : (trimF rawLine).headD '\x00' = '@')
    (htag : firstToken (getStringToLowerCase (getLineNoComment (trimF rawLine))) =
      "@flag".toList)
    (hbid : flagTypeOf (getLineNoComment (trimF rawLine)) = "nsobid".toList ∨
            flagTypeOf (getLineNoComment (trimF rawLine)) = "nrobid".toList) :
    ∃ st' evs, processLine st rawLine = .ok (st', evs) ∧
      st'.curPatchCollection =
        { buildId := flagValueOf (getLineNoComment (trimF rawLine)),
          targetType := if flagTypeOf (getLineNoComment (trimF rawLine)) = "nrobid".toList
                        then .NRO else .NSO,
          patches := [] } ∧
      st'.curPatch = {} ∧
      st'.isAcceptingPatch = false ∧
      st'.stopParsing = st.stopParsing ∧
      st'.collections = st.collections ++
        (if st.curPatchCollection.patches ++
            (if st.curPatch.contents = [] then [] else [st.curPatch]) = [] then []
         else [{ st.curPatchCollection with
                 patches := st.curPatchCollection.patches ++
                   (if st.curPatch.contents = [] then [] else [st.curPatch]) }]) := by
  rcases htr : trimF rawLine with _ | ⟨c, cs⟩
  · rw [htr] at hhead
    exact absurd hhead (by decide)
  · rw [htr, List.headD_cons] at hhead
    subst hhead
    rw [htr] at htag hbid
    unfold flagTypeOf at hbid
    unfold flagTypeOf flagValueOf
    simp only [processLine, handleTagLine, handleFlag, htr, htag]
    by_cases hc : st.curPatch.contents = [] <;>
      by_cases hp : st.curPatchCollection.patches = [] <;>
        rcases hbid with hb | hb <;>
          simp_all [List.append_eq_nil]

/-- Witness for claim C6 at a concrete state with a patch to flush, a
collection to complete, and an nrobid flag line with mixed-case value. -/
theorem c6_witness :
    ∃ st' evs, processLine c6WitState "@flag nrobid AbCd".toList = .ok (st', evs) ∧
      st'.curPatchCollection =
        { buildId := flagValueOf (getLineNoComment (trimF "@flag nrobid AbCd".toList)),
          targetType :=
            if flagTypeOf (getLineNoComment (trimF "@flag nrobid AbCd".toList)) = "nrobid".toList
            then .NRO else .NSO,
          patches := [] } ∧
      st'.curPatch = {} ∧
      st'.isAcceptingPatch = false ∧
      st'.stopParsing = c6WitState.stopParsing ∧
      st'.collections = c6WitState.collections ++
        (if c6WitState.curPatchCollection.patches ++
            (if c6WitState.curPatch.contents = [] then []
             else [c6WitState.curPatch]) = [] then []
         else [{ c6WitState.curPatchCollection with
                 patches := c6WitState.curPatchCollection.patches ++
                   (if c6WitState.curPatch.contents = [] then []
                    else [c6WitState.curPatch]) }]) :=
  c6_bid_flag_starts_fresh_collection c6WitState "@flag nrobid AbCd".toList
    (by decide) (by decide) (Or.inr (by decide))

-- Loop invariant lemmas for claims C4 and C10

/-- The initial parser state satisfies the loop invariant. -/
theorem inv_init : Inv ({} : ParserState) :=
  ⟨fun h => absurd rfl h, by simp, by simp⟩

/-- The enabled/disabled case preserves the loop invariant. -/
theorem inv_handleEnabledDisabled (st : ParserState) (a b : Str) (h : Inv st) :
    Inv (handleEnabledDisabled st a b).1 := by
  obtain ⟨h1, h2, h3⟩ := h
  unfold handleEnabledDisabled
  by_cases hbid : st.curPatchCollection.buildId = []
  · rw [if_pos hbid]
    exact ⟨h1, h2, h3⟩
  · rw [if_neg hbid]
    by_cases hc : st.curPatch.contents = []
    · rw [if_neg (fun hne => hne hc)]
      refine ⟨?_, h2, h3⟩
      intro habs
      exfalso
      apply habs
      simp only [apply_ite Patch.contents, ite_self]
      exact hc
    · rw [if_pos hc]
      refine ⟨?_, ?_, h3⟩
      · intro habs
        exfalso
        apply habs
        simp only [apply_ite Patch.contents, ite_self]
      · intro p hp
        simp only [List.mem_append, List.mem_singleton] at hp
        rcases hp with hp | rfl
        · exact h2 p hp
        · exact ⟨hc, h1 hc⟩

/-- The cheat-header case preserves the loop invariant. -/
theorem inv_handleCheat (st : ParserState) (lnc : Str) (h : Inv st) :
    Inv (handleCheat st lnc).1 := by
  obtain ⟨h1, h2, h3⟩ := h
  by_cases hbid : st.curPatchCollection.buildId = []
  · have he : (handleCheat st lnc).1 = {st with stopParsing := true} := by
      simp [handleCheat, hbid]
    rw [he]
    exact ⟨h1, h2, h3⟩
  · by_cases hc : st.curPatch.contents = []
    · have he : (handleCheat st lnc).1 =
        {st with curPatch :=
          { name := trimF ((lnc.drop 1).take (szSub (rfindChar lnc ']') 1)),
            author := [], type := .AMS, enabled := true,
            lineNum := st.curLineNum, contents := [] }} := by
        simp [handleCheat, hbid, hc]
      rw [he]
      exact ⟨fun habs => absurd rfl habs, h2, h3⟩
    · have he : (handleCheat st lnc).1 =
        {st with
          curPatchCollection :=
            {st.curPatchCollection with
              patches := st.curPatchCollection.patches ++ [st.curPatch]},
          curPatch :=
            { name := trimF ((lnc.drop 1).take (szSub (rfindChar lnc ']') 1)),
              author := [], type := .AMS, enabled := true,
              lineNum := st.curLineNum, contents := [] }} := by
        simp [handleCheat, hbid, hc]
      rw [he]
      refine ⟨fun habs => absurd rfl habs, ?_, h3⟩
      intro p hp
      simp only [List.mem_append, List.mem_singleton] at hp
      rcases hp with hp | rfl
      · exact h2 p hp
      · exact ⟨hc, h1 hc⟩

/-- Invariant helper: state after a build-id flag with nothing flushed or
with the collection flush already folded into the patches argument. -/
theorem inv_afterBid (st : ParserState) (bid : Str) (tt : TargetType) (ps : List Patch)
    (hps : ∀ p ∈ ps, GoodPatch p)
    (h3 : ∀ c ∈ st.collections, GoodColl c) :
    Inv {st with curPatch := {},
                 curPatchCollection := {buildId := bid, targetType := tt, patches := ps},
                 isAcceptingPatch := false} :=
  ⟨fun habs => absurd rfl habs, hps, h3⟩

/-- Invariant helper: state after a build-id flag that pushed the old
collection unchanged. -/
theorem inv_afterBidPushColl (st : ParserState) (bid : Str) (tt : TargetType)
    (hpp : st.curPatchCollection.patches ≠ [])
    (h2 : ∀ p ∈ st.curPatchCollection.patches, GoodPatch p)
    (h3 : ∀ c ∈ st.collections, GoodColl c) :
    Inv {st with curPatch := {},
                 curPatchCollection := {buildId := bid, targetType := tt, patches := []},
                 isAcceptingPatch := false,
                 collections := st.collections ++ [st.curPatchCollection]} := by
  refine ⟨fun habs => absurd rfl habs, by simp, ?_⟩
  intro cc hcc
  simp only [List.mem_append, List.mem_singleton] at hcc
  rcases hcc with hcc | rfl
  · exact h3 cc hcc
  · exact ⟨hpp, h2⟩

/-- Invariant helper: state after a build-id flag that flushed the patch
into the collection and pushed the collection. -/
theorem inv_afterBidPushBoth (st : ParserState) (bid : Str) (tt : TargetType)
    (h1 : st.curPatch.contents ≠ [] → st.curPatch.type = .AMS)
    (hc : ¬ st.curPatch.contents = [])
    (h2 : ∀ p ∈ st.curPatchCollection.patches, GoodPatch p)
    (h3 : ∀ c ∈ st.collections, GoodColl c) :
    Inv {st with curPatch := {},
                 curPatchCollection := {buildId := bid, targetType := tt, patches := []},
                 isAcceptingPatch := false,
                 collections := st.collections ++
                   [{st.curPatchCollection with
                       patches := st.curPatchCollection.patches ++ [st.curPatch]}]} := by
  refine ⟨fun habs => absurd rfl habs, by simp, ?_⟩
  intro cc hcc
  simp only [List.mem_append, List.mem_singleton] at hcc
  rcases hcc with hcc | rfl
  · exact h3 cc hcc
  · refine ⟨by simp, ?_⟩
    intro p hpm
    simp only [List.mem_append, List.mem_singleton] at hpm
    rcases hpm with hpm | rfl
    · exact h2 p hpm
    · exact ⟨hc, h1 hc⟩

/-- The flag case preserves the loop invariant. -/
theorem inv_handleFlag (st st' : ParserState) (a b : Str) (evs : List LogEvent)
    (h : Inv st) (hp : handleFlag st a b = .ok (st', evs)) : Inv st' := by
  obtain ⟨h1, h2, h3⟩ := h
  by_cases hn1 : getStringToLowerCase (ltrimF (firstToken (ltrimF (b.drop a.length)))) =
      "nsobid".toList
  · by_cases hc : st.curPatch.contents = []
    · by_cases hpp : st.curPatchCollection.patches = []
      · simp [handleFlag, hn1, hc, hpp] at hp
        obtain ⟨rfl, -⟩ := hp
        exact inv_afterBid st _ _ _ (by simp) h3
      · simp [handleFlag, hn1, hc, hpp] at hp
        obtain ⟨rfl, -⟩ := hp
        exact inv_afterBidPushColl st _ _ hpp h2 h3
    · simp [handleFlag, hn1, hc] at hp
      obtain ⟨rfl, -⟩ := hp
      exact inv_afterBidPushBoth st _ _ h1 hc h2 h3
  · by_cases hn2 : getStringToLowerCase (ltrimF (firstToken (ltrimF (b.drop a.length)))) =
        "nrobid".toList
    · by_cases hc : st.curPatch.contents = []
      · by_cases hpp : st.curPatchCollection.patches = []
        · simp [handleFlag, hn2, hc, hpp] at hp
          obtain ⟨rfl, -⟩ := hp
          exact inv_afterBid st _ _ _ (by simp) h3
        · simp [handleFlag, hn2, hc, hpp] at hp
          obtain ⟨rfl, -⟩ := hp
          exact inv_afterBidPushColl st _ _ hpp h2 h3
      · simp [handleFlag, hn2, hc] at hp
        obtain ⟨rfl, -⟩ := hp
        exact inv_afterBidPushBoth st _ _ h1 hc h2 h3
    · by_cases hbe : getStringToLowerCase (ltrimF (firstToken (ltrimF (b.drop a.length)))) =
          "be".toList
      · simp [handleFlag, hbe] at hp
        obtain ⟨rfl, -⟩ := hp
        exact ⟨h1, h2, h3⟩
      · by_cases hle : getStringToLowerCase (ltrimF (firstToken (ltrimF (b.drop a.length)))) =
            "le".toList
        · simp [handleFlag, hle] at hp
          obtain ⟨rfl, -⟩ := hp
          exact ⟨h1, h2, h3⟩
        · by_cases hos : getStringToLowerCase (ltrimF (firstToken (ltrimF (b.drop a.length)))) =
              "offset_shift".toList
          · rcases hsto : stoiE (ltrimF ((ltrimF (b.drop a.length)).drop
                (ltrimF (firstToken (ltrimF (b.drop a.length)))).length)) with e | v
            · simp [handleFlag, hbe, hle, hn1, hn2, hos, hsto] at hp
            · simp [handleFlag, hbe, hle, hn1, hn2, hos, hsto] at hp
              obtain ⟨rfl, -⟩ := hp
              exact ⟨h1, h2, h3⟩
          · by_cases hd1 : getStringToLowerCase (ltrimF (firstToken (ltrimF (b.drop a.length)))) =
                "debug_info".toList
            · simp [handleFlag, hbe, hle, hn1, hn2, hos, hd1] at hp
              obtain ⟨rfl, -⟩ := hp
              exact ⟨h1, h2, h3⟩
            · by_cases hd2 : getStringToLowerCase (ltrimF (firstToken (ltrimF (b.drop a.length)))) =
                  "print_values".toList
              · simp [handleFlag, hbe, hle, hn1, hn2, hos, hd1, hd2] at hp
                obtain ⟨rfl, -⟩ := hp
                exact ⟨h1, h2, h3⟩
              · simp only [handleFlag] at hp
                rw [if_neg hbe, if_neg hle, if_neg (not_or.mpr ⟨hn1, hn2⟩), if_neg hos,
                    if_neg (not_or.mpr ⟨hd1, hd2⟩)] at hp
                simp only [Except.ok.injEq, Prod.mk.injEq] at hp
                obtain ⟨rfl, -⟩ := hp
                exact ⟨h1, h2, h3⟩

/-- The dead guard of the legacy-nsobid branch never fires. -/
theorem legacy_guard_false (c : Str) :
    ¬ ((if c.length = 0 then 1 else 0) > "@nsobid".toList.length + 1) := by
  split <;> decide

/-- The legacy-nsobid case preserves the loop invariant. -/
theorem inv_handleLegacy (st st' : ParserState) (b c : Str) (evs : List LogEvent)
    (h : Inv st) (hp : handleLegacy st b c = .ok (st', evs)) : Inv st' := by
  obtain ⟨h1, h2, h3⟩ := h
  simp only [handleLegacy] at hp
  rw [if_neg (legacy_guard_false c)] at hp
  rcases hsub : substrE b ("@nsobid".toList.length + 1) with e | bid <;> rw [hsub] at hp
  · cases hp
  · simp only [Except.ok.injEq, Prod.mk.injEq] at hp
    obtain ⟨rfl, -⟩ := hp
    exact ⟨h1, h2, h3⟩

/-- The body-line case preserves the loop invariant. -/
theorem inv_handleBody (st : ParserState) (l lnc lncl : Str) (h : Inv st) :
    Inv (handleBody st l lnc lncl).1 := by
  obtain ⟨h1, h2, h3⟩ := h
  by_cases hacc : st.isAcceptingPatch = true
  case neg =>
    have he : handleBody st l lnc lncl = (st, []) := by
      simp [handleBody, hacc]
    rw [he]
    exact ⟨h1, h2, h3⟩
  case pos =>
    by_cases hl : l = []
    · have he : handleBody st l lnc lncl = (st, []) := by
        simp [handleBody, hacc, hl]
      rw [he]
      exact ⟨h1, h2, h3⟩
    · by_cases hty : st.curPatch.type = .AMS
      · have he : handleBody st l lnc lncl =
          ({st with curPatch := {st.curPatch with
              contents := st.curPatch.contents ++
                [{offset := 0, value := lnc.map (fun c => c.toNat % 256)}]}}, []) := by
          simp [handleBody, hacc, hl, hty]
        rw [he]
        exact ⟨fun _ => hty, h2, h3⟩
      · by_cases htok : firstToken lncl = []
        · have he : handleBody st l lnc lncl =
            (st, if st.logDebugInfo = true then [.invalidOffset st.curLineNum l] else []) := by
            simp [handleBody, hacc, hl, hty, htok]
          rw [he]
          exact ⟨h1, h2, h3⟩
        · have he : handleBody st l lnc lncl = (st, []) := by
            simp [handleBody, hacc, hl, hty, htok]
          rw [he]
          exact ⟨h1, h2, h3⟩

/-- The tag dispatch preserves the loop invariant. -/
theorem inv_handleTagLine (st st' : ParserState) (b c : Str) (evs : List LogEvent)
    (h : Inv st) (hp : handleTagLine st b c = .ok (st', evs)) : Inv st' := by
  obtain ⟨h1, h2, h3⟩ := h
  by_cases h4 : firstToken c = "@stop".toList
  · simp [handleTagLine, h4] at hp
    obtain ⟨rfl, -⟩ := hp
    exact ⟨h1, h2, h3⟩
  · by_cases h5 : firstToken c = "@enabled".toList
    · simp [handleTagLine, h4, h5] at hp
      have h6 : (handleEnabledDisabled st ("@enabled".toList) c).1 = st' :=
        congrArg Prod.fst hp
      rw [← h6]
      exact inv_handleEnabledDisabled st _ c ⟨h1, h2, h3⟩
    · by_cases h6 : firstToken c = "@disabled".toList
      · simp [handleTagLine, h4, h5, h6] at hp
        have h7 : (handleEnabledDisabled st ("@disabled".toList) c).1 = st' :=
          congrArg Prod.fst hp
        rw [← h7]
        exact inv_handleEnabledDisabled st _ c ⟨h1, h2, h3⟩
      · by_cases h7 : firstToken c = "@flag".toList
        · simp [handleTagLine, h4, h5, h6, h7] at hp
          exact inv_handleFlag st st' _ b evs ⟨h1, h2, h3⟩ hp
        · by_cases h8 : isStartsWith c "@nsobid".toList = true
          · simp only [handleTagLine] at hp
            rw [if_neg h4, if_neg (not_or.mpr ⟨h5, h6⟩), if_neg h7, if_pos h8] at hp
            exact inv_handleLegacy st st' b c evs ⟨h1, h2, h3⟩ hp
          · simp only [handleTagLine] at hp
            rw [if_neg h4, if_neg (not_or.mpr ⟨h5, h6⟩), if_neg h7, if_neg h8] at hp
            split at hp <;>
              (simp only [Except.ok.injEq, Prod.mk.injEq] at hp
               obtain ⟨rfl, -⟩ := hp
               exact ⟨h1, h2, h3⟩)

/-- One loop iteration preserves the loop invariant. -/
theorem inv_processLine (st st' : ParserState) (l : Str) (evs : List LogEvent)
    (h : Inv st) (hp : processLine st l = .ok (st', evs)) : Inv st' := by
  obtain ⟨h1, h2, h3⟩ := h
  simp only [processLine] at hp
  by_cases hA : (trimF l).headD ' ' = '@'
  · rw [if_pos hA] at hp
    exact inv_handleTagLine st st' _ _ evs ⟨h1, h2, h3⟩ hp
  · rw [if_neg hA] at hp
    by_cases hB : (trimF l).headD ' ' = '#'
    · rw [if_pos hB] at hp
      simp only [Except.ok.injEq, Prod.mk.injEq] at hp
      obtain ⟨rfl, -⟩ := hp
      exact ⟨h1, h2, h3⟩
    · rw [if_neg hB] at hp
      by_cases hC : (trimF l).headD ' ' = '['
      · rw [if_pos hC] at hp
        simp only [Except.ok.injEq] at hp
        have h6 : (handleCheat st (getLineNoComment (trimF l))).1 = st' :=
          congrArg Prod.fst hp
        rw [← h6]
        exact inv_handleCheat st _ ⟨h1, h2, h3⟩
      · rw [if_neg hC] at hp
        by_cases hD : (trimF l).headD ' ' = '/'
        · rw [if_pos hD] at hp
          simp only [Except.ok.injEq, Prod.mk.injEq] at hp
          obtain ⟨rfl, -⟩ := hp
          exact ⟨h1, h2, h3⟩
        · rw [if_neg hD] at hp
          simp only [Except.ok.injEq] at hp
          have h6 : (handleBody st (trimF l) (getLineNoComment (trimF l))
              (getStringToLowerCase (getLineNoComment (trimF l)))).1 = st' :=
            congrArg Prod.fst hp
          rw [← h6]
          exact inv_handleBody st _ _ _ ⟨h1, h2, h3⟩

/-- The whole loop preserves the loop invariant. -/
theorem inv_steps (lines : List Str) (st st' : ParserState) (evs : List LogEvent)
    (h : Inv st) (hp : steps lines st = .ok (st', evs)) : Inv st' := by
  induction lines generalizing st evs with
  | nil =>
    simp [steps] at hp
    obtain ⟨rfl, -⟩ := hp
    exact h
  | cons l rest ih =>
    by_cases hs : st.stopParsing = true
    · simp [steps, hs] at hp
      obtain ⟨rfl, -⟩ := hp
      exact h
    · rcases hpl : processLine st l with e | p
      · simp [steps, hs, hpl] at hp
      · rcases hrest : steps rest {p.1 with curLineNum := p.1.curLineNum + 1} with e | q
        · simp [steps, hs, hpl, hrest] at hp
        · simp [steps, hs, hpl, hrest] at hp
          obtain ⟨rfl, -⟩ := hp
          have hInv1 : Inv p.1 := inv_processLine st p.1 l p.2 h (by rw [hpl])
          have hInv2 : Inv {p.1 with curLineNum := p.1.curLineNum + 1} := hInv1
          exact ih _ _ hInv2 hrest

/-- Finalization preserves the loop invariant. -/
theorem inv_finalize (st : ParserState) (h : Inv st) : Inv (finalize st).1 := by
  obtain ⟨h1, h2, h3⟩ := h
  by_cases hc : st.curPatch.contents = []
  · by_cases hpp : st.curPatchCollection.patches = []
    · have he : (finalize st).1 = st := by
        simp [finalize, hc, hpp]
      rw [he]
      exact ⟨h1, h2, h3⟩
    · have he : (finalize st).1 =
        {st with collections := st.collections ++ [st.curPatchCollection]} := by
        simp [finalize, hc, hpp]
      rw [he]
      refine ⟨h1, h2, ?_⟩
      intro cc hcc
      simp only [List.mem_append, List.mem_singleton] at hcc
      rcases hcc with hcc | rfl
      · exact h3 cc hcc
      · exact ⟨hpp, h2⟩
  · have he : (finalize st).1 =
      {st with
        curPatchCollection :=
          {st.curPatchCollection with
            patches := st.curPatchCollection.patches ++ [st.curPatch]},
        collections := st.collections ++
          [{st.curPatchCollection with
              patches := st.curPatchCollection.patches ++ [st.curPatch]}]} := by
      simp [finalize, hc]
    rw [he]
    have hgood : ∀ p ∈ st.curPatchCollection.patches ++ [st.curPatch], GoodPatch p := by
      intro p hpm
      simp only [List.mem_append, List.mem_singleton] at hpm
      rcases hpm with hpm | rfl
      · exact h2 p hpm
      · exact ⟨hc, h1 hc⟩
    refine ⟨h1, hgood, ?_⟩
    intro cc hcc
    simp only [List.mem_append, List.mem_singleton] at hcc
    rcases hcc with hcc | rfl
    · exact h3 cc hcc
    · exact ⟨by simp, hgood⟩

/-- C4: the returned document never contains a collection with no patches
nor a patch with no contents: patches are flushed into a collection only
when non-empty and collections into the document only when non-empty, at
every flush point including finalization. -/
theorem c4_no_empty_entities (lines : List Str) (doc : PatchTextOutput) (log : List LogEvent)
    (h : parsePchtxtCore lines = .ok (doc, log)) :
    ∀ c ∈ doc.collections, c.patches ≠ [] ∧ ∀ p ∈ c.patches, p.contents ≠ [] := by
  simp only [parsePchtxtCore] at h
  rcases hs : steps lines ({} : ParserState) with e | ⟨st, evs⟩
  · rw [hs] at h
    cases h
  · rw [hs] at h
    simp only [Except.ok.injEq, Prod.mk.injEq] at h
    obtain ⟨rfl, -⟩ := h
    have hInv : Inv st := inv_steps lines {} st evs inv_init hs
    obtain ⟨-, -, h3⟩ := inv_finalize st hInv
    intro c hc
    obtain ⟨hne, hgood⟩ := h3 c hc
    exact ⟨hne, fun p hp => (hgood p hp).1⟩

/-- Witness for claim C4: a run producing one collection with one
non-empty patch, to which the theorem applies. -/
theorem c4_witness :
    ∃ r, parsePchtxtCore w4Input = .ok r ∧
      ∀ c ∈ r.1.collections, c.patches ≠ [] ∧ ∀ p ∈ c.patches, p.contents ≠ [] :=
  ⟨_, rfl, c4_no_empty_entities w4Input _ _ rfl⟩

/-- C10 (implicit): every patch in the returned document has the
cheat-script (AMS) type, since only AMS body lines ever append contents
and patches are flushed only when their contents are non-empty; binary and
heap patches always stay empty and are dropped. -/
theorem c10_all_patches_ams (lines : List Str) (doc : PatchTextOutput) (log : List LogEvent)
    (h : parsePchtxtCore lines = .ok (doc, log)) :
    ∀ c ∈ doc.collections, ∀ p ∈ c.patches, p.type = .AMS := by
  simp only [parsePchtxtCore] at h
  rcases hs : steps lines ({} : ParserState) with e | ⟨st, evs⟩
  · rw [hs] at h
    cases h
  · rw [hs] at h
    simp only [Except.ok.injEq, Prod.mk.injEq] at h
    obtain ⟨rfl, -⟩ := h
    have hInv : Inv st := inv_steps lines {} st evs inv_init hs
    obtain ⟨-, -, h3⟩ := inv_finalize st hInv
    intro c hc p hp
    exact ((h3 c hc).2 p hp).2

/-- Witness for claim C10: the same run, with the single patch of AMS
type. -/
theorem c10_witness :
    ∃ r, parsePchtxtCore w4Input = .ok r ∧
      ∀ c ∈ r.1.collections, ∀ p ∈ c.patches, p.type = .AMS :=
  ⟨_, rfl, c10_all_patches_ams w4Input _ _ rfl⟩

-- Lemmas towards claim C3

theorem errCount_append (a b : List LogEvent) :
    errCount (a ++ b) = errCount a + errCount b := by
  simp [errCount, List.filter_append]

/-- A stopped state swallows the rest of the stream unchanged. -/
theorem steps_stopped (ls : List Str) (st : ParserState) (h : st.stopParsing = true) :
    steps ls st = .ok (st, []) := by
  cases ls <;> simp [steps, h]

/-- The loop splits over list append. -/
theorem steps_append (a b : List Str) (st : ParserState) :
    steps (a ++ b) st =
      match steps a st with
      | .error e => .error e
      | .ok (st1, e1) =>
        match steps b st1 with
        | .error e => .error e
        | .ok (st2, e2) => .ok (st2, e1 ++ e2) := by
  induction a generalizing st with
  | nil =>
    simp only [List.nil_append, steps]
    rcases steps b st with e | ⟨st2, e2⟩ <;> simp
  | cons l rest ih =>
    by_cases hs : st.stopParsing = true
    · rw [steps_stopped (l :: rest) st hs, steps_stopped ((l :: rest) ++ b) st hs]
      simp [steps_stopped b st hs]
    · rcases hpl : processLine st l with e | ⟨p1, p2⟩
      · simp [steps, hs, hpl]
      · simp [steps, List.cons_append, hs, hpl, List.append_eq]
        rw [ih]
        rcases hsr : steps rest {p1 with curLineNum := p1.curLineNum + 1} with e | ⟨q1, q2⟩
        · simp [hsr]
        · simp [hsr]
          rcases hsb : steps b q1 with e | ⟨r1, r2⟩ <;> simp [hsb, List.append_assoc]

/-- No event written by the meta scan is an error event. -/
theorem runMeta_no_err (lines : List Str) (ms : MetaState) :
    ∀ e ∈ (runMeta lines ms).2, isErrorEv e = false := by
  induction lines generalizing ms with
  | nil =>
    intro e he
    simp only [runMeta, List.mem_singleton] at he
    subst he
    rfl
  | cons l rest ih =>
    intro e he
    simp only [runMeta] at he
    split_ifs at he <;>
      first
      | (simp only [List.mem_singleton] at he; subst he; rfl)
      | (simp only [List.mem_cons] at he
         rcases he with rfl | he
         · rfl
         · exact ih _ e he)
      | exact ih _ e he

/-- No event written by the meta pass, fallback line included, is an
error event. -/
theorem getPchtxtMetaCore_err_free (lines : List Str) :
    errCount (getPchtxtMetaCore lines).2 = 0 := by
  have hall : ∀ e ∈ (runMeta lines ({} : MetaState)).2, isErrorEv e = false :=
    runMeta_no_err lines {}
  rcases hm : runMeta lines ({} : MetaState) with ⟨ms, evs⟩
  rw [hm] at hall
  have h1 : errCount evs = 0 := by
    simp only [errCount, List.length_eq_zero, List.filter_eq_nil_iff]
    intro e he
    simp [hall e he]
  unfold getPchtxtMetaCore
  rw [hm]
  show errCount
    (if ms.title = [] then
      (({ title := ms.legacyTitle, programId := ms.programId, url := ms.url } : PatchTextMeta),
        evs ++ [LogEvent.legacyTitleUsed ms.legacyTitle])
     else ({ title := ms.title, programId := ms.programId, url := ms.url }, evs)).2 = 0
  split_ifs with ht
  · rw [errCount_append, h1]
    rfl
  · exact h1

/-- Quiet preservation for the flag case, with no error event written. -/
theorem quiet_handleFlag (st st' : ParserState) (a b : Str) (evs : List LogEvent)
    (hq : Quiet st) (hp : handleFlag st a b = .ok (st', evs)) :
    Quiet st' ∧ errCount evs = 0 := by
  obtain ⟨hcols, hpats, hconts, hacc⟩ := hq
  by_cases hn1 : getStringToLowerCase (ltrimF (firstToken (ltrimF (b.drop a.length)))) =
      "nsobid".toList
  · simp [handleFlag, hn1, hconts, hpats] at hp
    obtain ⟨rfl, rfl⟩ := hp
    refine ⟨⟨hcols, rfl, rfl, rfl⟩, ?_⟩
    split <;> rfl
  · by_cases hn2 : getStringToLowerCase (ltrimF (firstToken (ltrimF (b.drop a.length)))) =
        "nrobid".toList
    · simp [handleFlag, hn2, hconts, hpats] at hp
      obtain ⟨rfl, rfl⟩ := hp
      refine ⟨⟨hcols, rfl, rfl, rfl⟩, ?_⟩
      split <;> rfl
    · by_cases hbe : getStringToLowerCase (ltrimF (firstToken (ltrimF (b.drop a.length)))) =
          "be".toList
      · simp [handleFlag, hbe] at hp
        obtain ⟨rfl, rfl⟩ := hp
        exact ⟨⟨hcols, hpats, hconts, hacc⟩, rfl⟩
      · by_cases hle : getStringToLowerCase (ltrimF (firstToken (ltrimF (b.drop a.length)))) =
            "le".toList
        · simp [handleFlag, hle] at hp
          obtain ⟨rfl, rfl⟩ := hp
          exact ⟨⟨hcols, hpats, hconts, hacc⟩, rfl⟩
        · by_cases hos : getStringToLowerCase (ltrimF (firstToken (ltrimF (b.drop a.length)))) =
              "offset_shift".toList
          · rcases hsto : stoiE (ltrimF ((ltrimF (b.drop a.length)).drop
                (ltrimF (firstToken (ltrimF (b.drop a.length)))).length)) with e | v
            · simp [handleFlag, hbe, hle, hn1, hn2, hos, hsto] at hp
            · simp [handleFlag, hbe, hle, hn1, hn2, hos, hsto] at hp
              obtain ⟨rfl, rfl⟩ := hp
              exact ⟨⟨hcols, hpats, hconts, hacc⟩, rfl⟩
          · by_cases hd1 : getStringToLowerCase (ltrimF (firstToken (ltrimF (b.drop a.length)))) =
                "debug_info".toList
            · simp [handleFlag, hbe, hle, hn1, hn2, hos, hd1] at hp
              obtain ⟨rfl, rfl⟩ := hp
              exact ⟨⟨hcols, hpats, hconts, hacc⟩, rfl⟩
            · by_cases hd2 : getStringToLowerCase (ltrimF (firstToken (ltrimF (b.drop a.length)))) =
                  "print_values".toList
              · simp [handleFlag, hbe, hle, hn1, hn2, hos, hd1, hd2] at hp
                obtain ⟨rfl, rfl⟩ := hp
                exact ⟨⟨hcols, hpats, hconts, hacc⟩, rfl⟩
              · simp only [handleFlag] at hp
                rw [if_neg hbe, if_neg hle, if_neg (not_or.mpr ⟨hn1, hn2⟩), if_neg hos,
                    if_neg (not_or.mpr ⟨hd1, hd2⟩)] at hp
                simp only [Except.ok.injEq, Prod.mk.injEq] at hp
                obtain ⟨rfl, rfl⟩ := hp
                exact ⟨⟨hcols, hpats, hconts, hacc⟩, rfl⟩

/-- Quiet preservation for the legacy nsobid case, with no error event
written. -/
theorem quiet_handleLegacy (st st' : ParserState) (b c : Str) (evs : List LogEvent)
    (hq : Quiet st) (hp : handleLegacy st b c = .ok (st', evs)) :
    Quiet st' ∧ errCount evs = 0 := by
  obtain ⟨hcols, hpats, hconts, hacc⟩ := hq
  simp only [handleLegacy] at hp
  rw [if_neg (legacy_guard_false c)] at hp
  rcases hsub : substrE b ("@nsobid".toList.length + 1) with e | bid <;> rw [hsub] at hp
  · cases hp
  · simp only [Except.ok.injEq, Prod.mk.injEq] at hp
    obtain ⟨rfl, rfl⟩ := hp
    refine ⟨⟨hcols, hpats, hconts, hacc⟩, ?_⟩
    split <;> rfl

/-- Quiet preservation for the tag dispatch while the build id is empty
and the resulting state is not stopped. -/
theorem quiet_handleTagLine (st st' : ParserState) (b c : Str) (evs : List LogEvent)
    (hq : Quiet st) (hbid : st.curPatchCollection.buildId = [])
    (hp : handleTagLine st b c = .ok (st', evs)) (hstop : st'.stopParsing = false) :
    Quiet st' ∧ errCount evs = 0 := by
  obtain ⟨hcols, hpats, hconts, hacc⟩ := hq
  by_cases h4 : firstToken c = "@stop".toList
  · simp [handleTagLine, h4] at hp
    obtain ⟨rfl, -⟩ := hp
    simp at hstop
  · by_cases h5 : firstToken c = "@enabled".toList
    · simp only [handleTagLine] at hp
      rw [if_neg h4, if_pos (Or.inl h5), h5] at hp
      have he : handleEnabledDisabled st ("@enabled".toList) c =
          ({st with stopParsing := true}, [.errMissingBid st.curLineNum "@enabled".toList]) := by
        simp [handleEnabledDisabled, hbid]
      rw [he] at hp
      simp only [Except.ok.injEq, Prod.mk.injEq] at hp
      obtain ⟨rfl, -⟩ := hp
      simp at hstop
    · by_cases h6 : firstToken c = "@disabled".toList
      · simp only [handleTagLine] at hp
        rw [if_neg h4, if_pos (Or.inr h6), h6] at hp
        have he : handleEnabledDisabled st ("@disabled".toList) c =
            ({st with stopParsing := true}, [.errMissingBid st.curLineNum "@disabled".toList]) := by
          simp [handleEnabledDisabled, hbid]
        rw [he] at hp
        simp only [Except.ok.injEq, Prod.mk.injEq] at hp
        obtain ⟨rfl, -⟩ := hp
        simp at hstop
      · by_cases h7 : firstToken c = "@flag".toList
        · simp [handleTagLine, h4, h5, h6, h7] at hp
          exact quiet_handleFlag st st' _ b evs ⟨hcols, hpats, hconts, hacc⟩ hp
        · by_cases h8 : isStartsWith c "@nsobid".toList = true
          · simp only [handleTagLine] at hp
            rw [if_neg h4, if_neg (not_or.mpr ⟨h5, h6⟩), if_neg h7, if_pos h8] at hp
            exact quiet_handleLegacy st st' b c evs ⟨hcols, hpats, hconts, hacc⟩ hp
          · simp only [handleTagLine] at hp
            rw [if_neg h4, if_neg (not_or.mpr ⟨h5, h6⟩), if_neg h7, if_neg h8] at hp
            split at hp <;>
              (simp only [Except.ok.injEq, Prod.mk.injEq] at hp
               obtain ⟨rfl, rfl⟩ := hp
               exact ⟨⟨hcols, hpats, hconts, hacc⟩, rfl⟩)

/-- Quiet preservation for one loop iteration while the build id is empty
and the resulting state is not stopped; no error event is written. -/
theorem quiet_processLine (st st' : ParserState) (l : Str) (evs : List LogEvent)
    (hq : Quiet st) (hbid : st.curPatchCollection.buildId = [])
    (hp : processLine st l = .ok (st', evs)) (hstop : st'.stopParsing = false) :
    Quiet st' ∧ errCount evs = 0 := by
  obtain ⟨hcols, hpats, hconts, hacc⟩ := hq
  simp only [processLine] at hp
  by_cases hA : (trimF l).headD ' ' = '@'
  · rw [if_pos hA] at hp
    exact quiet_handleTagLine st st' _ _ evs ⟨hcols, hpats, hconts, hacc⟩ hbid hp hstop
  · rw [if_neg hA] at hp
    by_cases hB : (trimF l).headD ' ' = '#'
    · rw [if_pos hB] at hp
      simp only [Except.ok.injEq, Prod.mk.injEq] at hp
      obtain ⟨rfl, rfl⟩ := hp
      exact ⟨⟨hcols, hpats, hconts, hacc⟩, rfl⟩
    · rw [if_neg hB] at hp
      by_cases hC : (trimF l).headD ' ' = '['
      · rw [if_pos hC] at hp
        simp only [Except.ok.injEq] at hp
        have he : handleCheat st (getLineNoComment (trimF l)) =
            ({st with stopParsing := true}, [.errMissingBid st.curLineNum []]) := by
          simp [handleCheat, hbid]
        rw [he] at hp
        simp only [Prod.mk.injEq] at hp
        obtain ⟨rfl, -⟩ := hp
        simp at hstop
      · rw [if_neg hC] at hp
        by_cases hD : (trimF l).headD ' ' = '/'
        · rw [if_pos hD] at hp
          simp only [Except.ok.injEq, Prod.mk.injEq] at hp
          obtain ⟨rfl, rfl⟩ := hp
          exact ⟨⟨hcols, hpats, hconts, hacc⟩, rfl⟩
        · rw [if_neg hD] at hp
          simp only [Except.ok.injEq] at hp
          have he : handleBody st (trimF l) (getLineNoComment (trimF l))
              (getStringToLowerCase (getLineNoComment (trimF l))) = (st, []) := by
            simp [handleBody, hacc]
          rw [he] at hp
          simp only [Prod.mk.injEq] at hp
          obtain ⟨rfl, rfl⟩ := hp
          exact ⟨⟨hcols, hpats, hconts, hacc⟩, rfl⟩

/-- Running the loop over a segment in which no state ever establishes a
build id leaves the state quiet and the event list free of errors. -/
theorem quiet_steps (pre : List Str) :
    ∀ st' evs, steps pre ({} : ParserState) = .ok (st', evs) → st'.stopParsing = false →
    (∀ p q, pre = p ++ q → ∀ s2 e2, steps p ({} : ParserState) = .ok (s2, e2) →
      s2.curPatchCollection.buildId = []) →
    Quiet st' ∧ errCount evs = 0 := by
  induction pre using List.reverseRecOn with
  | nil =>
    intro st' evs hp hstop hpre
    simp only [steps, Except.ok.injEq, Prod.mk.injEq] at hp
    obtain ⟨rfl, rfl⟩ := hp
    exact ⟨⟨rfl, rfl, rfl, rfl⟩, rfl⟩
  | append_singleton p x ih =>
    intro st' evs hp hstop hpre
    rw [steps_append] at hp
    rcases hsp : steps p ({} : ParserState) with e | ⟨s1, e1⟩ <;> rw [hsp] at hp
    · cases hp
    · have hp2 : (match steps [x] s1 with
          | Except.error e => (Except.error e : Except CppExn (ParserState × List LogEvent))
          | Except.ok (st2, e2) => Except.ok (st2, e1 ++ e2)) = Except.ok (st', evs) := hp
      by_cases hs1 : s1.stopParsing = true
      · rw [steps_stopped [x] s1 hs1] at hp2
        have hp3 : (Except.ok (s1, e1 ++ []) :
            Except CppExn (ParserState × List LogEvent)) = Except.ok (st', evs) := hp2
        simp only [Except.ok.injEq, Prod.mk.injEq] at hp3
        obtain ⟨rfl, rfl⟩ := hp3
        exact absurd hstop (by simp [hs1])
      · have hbid1 : s1.curPatchCollection.buildId = [] :=
          hpre p [x] rfl s1 e1 hsp
        have hq1 : Quiet s1 ∧ errCount e1 = 0 := by
          refine ih s1 e1 hsp (by simpa using hs1) ?_
          intro p' q' hsplit s2 e2 hst
          exact hpre p' (q' ++ [x]) (by rw [hsplit, List.append_assoc]) s2 e2 hst
        rcases hpl : processLine s1 x with e | ⟨s2, e2X⟩
        · rw [show steps [x] s1 = .error e by simp [steps, hs1, hpl]] at hp2
          cases hp2
        · have hx : steps [x] s1 =
              .ok ({s2 with curLineNum := s2.curLineNum + 1}, e2X) := by
            simp [steps, hs1, hpl]
          rw [hx] at hp2
          have hp3 : (Except.ok ({s2 with curLineNum := s2.curLineNum + 1}, e1 ++ e2X) :
              Except CppExn (ParserState × List LogEvent)) = Except.ok (st', evs) := hp2
          simp only [Except.ok.injEq, Prod.mk.injEq] at hp3
          obtain ⟨rfl, rfl⟩ := hp3
          have hstop2 : s2.stopParsing = false := hstop
          obtain ⟨hq2, herr2⟩ :=
            quiet_processLine s1 s2 x e2X hq1.1 hbid1 hpl hstop2
          obtain ⟨hc2, hp2a, hn2a, ha2⟩ := hq2
          exact ⟨⟨hc2, hp2a, hn2a, ha2⟩, by rw [errCount_append, hq1.2, herr2]⟩

/-- A line the tag dispatch classifies as enabled or disabled, processed
while the build id is empty, writes one missing-build-id error and sets
the stop flag. -/
theorem enabled_line_errs (st : ParserState) (l : Str)
    (hl : isEnabledDisabledLine l = true)
    (hbid : st.curPatchCollection.buildId = []) :
    processLine st l = .ok ({st with stopParsing := true},
      [.errMissingBid st.curLineNum
        (firstToken (getStringToLowerCase (getLineNoComment (trimF l))))]) := by
  simp only [isEnabledDisabledLine, Bool.and_eq_true, Bool.or_eq_true, beq_iff_eq] at hl
  obtain ⟨hhead, htag⟩ := hl
  simp only [processLine]
  rw [if_pos hhead]
  simp only [handleTagLine]
  have hns : firstToken (getStringToLowerCase (getLineNoComment (trimF l))) ≠
      "@stop".toList := by
    rcases htag with h | h <;> rw [h] <;> decide
  rw [if_neg hns, if_pos htag]
  simp only [handleEnabledDisabled]
  rw [if_pos hbid]

/-- parsePchtxtCore expressed through the result of the loop. -/
theorem parsePchtxtCore_of_steps (lines : List Str) (st : ParserState) (evs : List LogEvent)
    (h : steps lines ({} : ParserState) = .ok (st, evs)) :
    parsePchtxtCore lines = .ok
      ({meta := (getPchtxtMetaCore lines).1, collections := (finalize st).1.collections},
       (getPchtxtMetaCore lines).2 ++
         (evs ++ (if st.stopParsing then [] else [.doneParsing])) ++ (finalize st).2) := by
  simp only [parsePchtxtCore]
  rw [h]

/-- C3: an enabled or disabled tag reached while no line so far has
established a non-empty build id halts parsing with exactly one logged
error; finalization still runs and the returned document has no
collections. -/
theorem c3_enabled_before_bid (pre rest : List Str) (l : Str)
    (hl : isEnabledDisabledLine l = true)
    (hpre : ∀ p q, pre = p ++ q → ∀ s2 e2, steps p ({} : ParserState) = .ok (s2, e2) →
      s2.curPatchCollection.buildId = [])
    (hok : ∃ stp evp, steps pre ({} : ParserState) = .ok (stp, evp) ∧
      stp.stopParsing = false) :
    ∃ doc log, parsePchtxtCore (pre ++ l :: rest) = .ok (doc, log) ∧
      doc.collections = [] ∧ errCount log = 1 := by
  obtain ⟨stp, evp, hsp, hstop⟩ := hok
  obtain ⟨⟨hcols, hpats, hconts, hacc⟩, herr⟩ :=
    quiet_steps pre stp evp hsp hstop hpre
  have hbid : stp.curPatchCollection.buildId = [] :=
    hpre pre [] (by simp) stp evp hsp
  have hstep := enabled_line_errs stp l hl hbid
  have hfull : steps (pre ++ l :: rest) ({} : ParserState) =
      .ok ({stp with stopParsing := true, curLineNum := stp.curLineNum + 1},
           evp ++ [.errMissingBid stp.curLineNum
             (firstToken (getStringToLowerCase (getLineNoComment (trimF l))))]) := by
    have h1 : steps (l :: rest) stp =
        .ok ({stp with stopParsing := true, curLineNum := stp.curLineNum + 1},
             [.errMissingBid stp.curLineNum
               (firstToken (getStringToLowerCase (getLineNoComment (trimF l))))]) := by
      simp only [steps]
      rw [if_neg (by simp [hstop]), hstep]
      show (match steps rest
              ({stp with stopParsing := true, curLineNum := stp.curLineNum + 1}) with
        | Except.error e => (Except.error e : Except CppExn (ParserState × List LogEvent))
        | Except.ok (st2, evs2) =>
          Except.ok (st2, [LogEvent.errMissingBid stp.curLineNum
            (firstToken (getStringToLowerCase (getLineNoComment (trimF l))))] ++ evs2)) = _
      rw [steps_stopped rest _ rfl]
      rfl
    rw [steps_append, hsp]
    show (match steps (l :: rest) stp with
      | Except.error e => (Except.error e : Except CppExn (ParserState × List LogEvent))
      | Except.ok (st2, e2) => Except.ok (st2, evp ++ e2)) = _
    rw [h1]
  have hfin : finalize {stp with stopParsing := true, curLineNum := stp.curLineNum + 1} =
      ({stp with stopParsing := true, curLineNum := stp.curLineNum + 1}, []) := by
    simp [finalize, hconts, hpats]
  refine ⟨_, _, parsePchtxtCore_of_steps _ _ _ hfull, ?_, ?_⟩
  · simp only [hfin]
    exact hcols
  · simp [hfin, errCount_append, errCount, isErrorEv]
    have herr2 : (List.filter isErrorEv evp).length = 0 := herr
    have hm2 : (List.filter isErrorEv (getPchtxtMetaCore (pre ++ l :: rest)).2).length = 0 :=
      getPchtxtMetaCore_err_free (pre ++ l :: rest)
    omega

/-- Witness for claim C3: an enabled tag as the very first line. -/
theorem c3_witness :
    ∃ doc log, parsePchtxtCore ([] ++ "@enabled".toList :: []) = .ok (doc, log) ∧
      doc.collections = [] ∧ errCount log = 1 := by
  refine c3_enabled_before_bid [] [] "@enabled".toList (by decide) ?_ ⟨{}, [], rfl, rfl⟩
  intro p q hsplit s2 e2 hst
  have hp : p = [] := by
    rcases p with _ | ⟨x, xs⟩
    · rfl
    · cases hsplit
  subst hp
  simp only [steps, Except.ok.injEq, Prod.mk.injEq] at hst
  obtain ⟨rfl, -⟩ := hst
  rfl

-- Lemmas towards claim C8

theorem rtrimF_idem (s : Str) : rtrimF (rtrimF s) = rtrimF s := by
  induction s with
  | nil => rfl
  | cons c cs ih =>
    simp only [rtrimF]
    split_ifs with h
    · rfl
    · simp only [rtrimF, ih]
      rw [if_neg h]

theorem rtrimF_eq_self_drop (s : Str) (h : rtrimF s = s) :
    rtrimF (s.drop 1) = s.drop 1 := by
  cases s with
  | nil => rfl
  | cons c cs =>
    simp only [rtrimF] at h
    split_ifs at h with hc
    show rtrimF cs = cs
    injection h

theorem rtrimF_ltrimF : ∀ z : Str, rtrimF z = z → rtrimF (ltrimF z) = ltrimF z := by
  intro z
  induction z with
  | nil => intro _; rfl
  | cons c cs ih =>
    intro h
    have h' := h
    simp only [rtrimF] at h'
    split_ifs at h' with hc
    have h2 : rtrimF cs = cs := by injection h'
    simp only [ltrimF, List.dropWhile_cons]
    by_cases hsp : isspace c = true
    · rw [if_pos hsp]
      exact ih h2
    · rw [if_neg hsp]
      exact h

/-- For a comment-stripped (hence right-trimmed) line, left-trimming the
marker-stripped remainder equals fully trimming it. -/
theorem ltrim_drop_eq_trim_drop (x : Str) :
    ltrimF ((getLineNoComment x).drop 1) = trimF ((getLineNoComment x).drop 1) := by
  have h0 : rtrimF (getLineNoComment x) = getLineNoComment x :=
    rtrimF_idem (x.take (commentPos x))
  have h1 : rtrimF ((getLineNoComment x).drop 1) = (getLineNoComment x).drop 1 :=
    rtrimF_eq_self_drop _ h0
  have h2 : rtrimF (ltrimF ((getLineNoComment x).drop 1)) =
      ltrimF ((getLineNoComment x).drop 1) :=
    rtrimF_ltrimF _ h1
  unfold trimF
  exact h2.symm

/-- A non-title tag assignment changes neither the title nor the legacy
candidate. -/
theorem metaApplyTag_title (ms : MetaState) (t v : Str) (h : t ≠ "@title".toList) :
    (metaApplyTag ms t v).title = ms.title ∧
    (metaApplyTag ms t v).legacyTitle = ms.legacyTitle := by
  unfold metaApplyTag
  rw [if_neg h]
  split_ifs <;> exact ⟨rfl, rfl⟩

/-- Through a scan free of explicit title tags, the title stays empty and
the legacy candidate tracks the last echo line, as the specification-side
recursion computes it. -/
theorem runMeta_title_legacy : ∀ (lines : List Str) (ms : MetaState),
    ms.title = [] → noTitleTagInScan lines = true →
    (runMeta lines ms).1.title = [] ∧
    (runMeta lines ms).1.legacyTitle = lastEchoCandidateSpec lines ms.legacyTitle := by
  intro lines
  induction lines with
  | nil =>
    intro ms h1 _
    exact ⟨h1, rfl⟩
  | cons l rest ih =>
    intro ms h1 hno
    simp only [runMeta, lastEchoCandidateSpec]
    simp only [noTitleTagInScan] at hno
    by_cases he : trimF l = []
    · rw [if_pos he, if_pos he]
      exact ⟨h1, rfl⟩
    · rw [if_neg he, if_neg he]
      rw [if_neg he] at hno
      by_cases hA : (getLineNoComment (trimF l)).headD '\x00' = '@'
      · rw [if_pos hA]
        rw [if_pos hA] at hno
        by_cases hstop : firstToken (getStringToLowerCase (getLineNoComment (trimF l))) =
            "@stop".toList
        · rw [if_pos hstop, if_pos ⟨hA, hstop⟩]
          exact ⟨h1, rfl⟩
        · rw [if_neg hstop]
          rw [if_neg hstop] at hno
          have hspecneg : ¬((getLineNoComment (trimF l)).headD '\x00' = '@' ∧
              firstToken (getStringToLowerCase (getLineNoComment (trimF l))) =
                "@stop".toList) := fun hand => hstop hand.2
          rw [if_neg hspecneg]
          have hH : ¬ (getLineNoComment (trimF l)).headD '\x00' = '#' := by
            rw [hA]; decide
          rw [if_neg hH]
          by_cases ht : firstToken (getStringToLowerCase (getLineNoComment (trimF l))) =
              "@title".toList
          · rw [if_pos ht] at hno
            exact Bool.noConfusion hno
          · rw [if_neg ht] at hno
            by_cases hmap : (["@title".toList, "@program".toList, "@url".toList].contains
                (firstToken (getStringToLowerCase (getLineNoComment (trimF l))))) = true
            · rw [if_pos hmap]
              simp only [metaApplyTag]
              rw [if_neg ht]
              by_cases hprog : firstToken (getStringToLowerCase (getLineNoComment (trimF l))) =
                  "@program".toList
              · rw [if_pos hprog]
                refine ih _ ?_ hno
                exact h1
              · rw [if_neg hprog]
                refine ih _ ?_ hno
                exact h1
            · rw [if_neg hmap]
              exact ih _ h1 hno
      · rw [if_neg hA]
        rw [if_neg hA] at hno
        have hspecneg : ¬((getLineNoComment (trimF l)).headD '\x00' = '@' ∧
            firstToken (getStringToLowerCase (getLineNoComment (trimF l))) =
              "@stop".toList) := fun hand => hA hand.1
        rw [if_neg hspecneg]
        by_cases hH : (getLineNoComment (trimF l)).headD '\x00' = '#'
        · rw [if_pos hH, if_pos hH]
          have hih := ih {ms with
              legacyTitle := ltrimF ((getLineNoComment (trimF l)).drop 1),
              curLineNum := ms.curLineNum + 1} h1 hno
          refine ⟨hih.1, ?_⟩
          show (runMeta rest {ms with
              legacyTitle := ltrimF ((getLineNoComment (trimF l)).drop 1),
              curLineNum := ms.curLineNum + 1}).1.legacyTitle =
            lastEchoCandidateSpec rest (trimF ((getLineNoComment (trimF l)).drop 1))
          rw [hih.2]
          show lastEchoCandidateSpec rest (ltrimF ((getLineNoComment (trimF l)).drop 1)) = _
          rw [ltrim_drop_eq_trim_drop]
        · rw [if_neg hH, if_neg hH]
          exact ih _ h1 hno

/-- C8: in the meta pass, every line whose comment-stripped form starts
with the echo marker records its marker-stripped, trimmed remainder as the
legacy title candidate, later echo lines overwriting earlier ones; if no
explicit title tag is consumed by the scan, the returned title equals the
last-seen candidate (the empty string when no echo line occurred),
computed here by the specification-side recursion lastEchoCandidateSpec. -/
theorem c8_title_fallback (lines : List Str)
    (hno : noTitleTagInScan lines = true) :
    (getPchtxtMetaCore lines).1.title = lastEchoCandidateSpec lines [] := by
  have h := runMeta_title_legacy lines {} rfl hno
  unfold getPchtxtMetaCore
  rcases hm : runMeta lines ({} : MetaState) with ⟨ms, evs⟩
  rw [hm] at h
  show ((if ms.title = [] then
      (({title := ms.legacyTitle, programId := ms.programId, url := ms.url} : PatchTextMeta),
        evs ++ [LogEvent.legacyTitleUsed ms.legacyTitle])
    else ({title := ms.title, programId := ms.programId, url := ms.url}, evs)) :
    PatchTextMeta × List LogEvent).1.title = lastEchoCandidateSpec lines []
  rw [if_pos h.1]
  exact h.2

/-- Witness for claim C8: two echo-free meta lines, one echo line and one
program tag, with the title falling back to the echo candidate. -/
theorem c8_witness :
    noTitleTagInScan (["# Hello", "@program X"].map String.toList) = true ∧
    (getPchtxtMetaCore (["# Hello", "@program X"].map String.toList)).1.title =
      lastEchoCandidateSpec (["# Hello", "@program X"].map String.toList) [] :=
  ⟨by decide, c8_title_fallback _ (by decide)⟩

end Pchtxt
